import Mathlib

/-!
# Verification of `ubuntu_hook.py`

A shallow embedding of the log-directory discovery and monitoring program
`src/ubuntu_hook.py`, together with proofs of the specification claims.

Modelling conventions:
* Python `dict` (insertion ordered) is a `List (Nat × String)` of key/value
  pairs; `dict[k] = v` replaces in place when the key exists, else appends.
* Python `set` of strings is a `List String` kept duplicate-free by the
  insertion operation.
* The inotify capability is an oracle: each `add_watch` call's outcome
  (a watch descriptor, a `PermissionError`, or another exception) is an
  explicit input to the embedded function, as is each `os.path.isdir`
  answer.  The embedding therefore quantifies over all possible oracle
  behaviours, including adversarial ones.
* The filesystem seen by discovery is a structure of functions
  (`listdir`, `isdir`, `isfile`, `pathexists`); `listdir` returning `none`
  models a `PermissionError`.  Nothing restricts the functions, so
  symlink-cyclic filesystems are included.
-/

namespace UbuntuHook

/-- The `LogEvent` dataclass: timestamp, directory path, file name,
event-type string, optional file size. -/
structure LogEvent where
  timestamp : String
  path : String
  filename : String
  event_type : String
  size : Option Nat
deriving DecidableEq, Repr

/-! ## Python container primitives -/

/-- `d[k] = v` on an insertion-ordered `dict`: replace the value in place if
the key is present, otherwise append the new pair at the end. -/
def dictInsert (k : Nat) (v : String) : List (Nat × String) → List (Nat × String)
  | [] => [(k, v)]
  | (k', v') :: rest =>
      if k' = k then (k, v) :: rest else (k', v') :: dictInsert k v rest

/-- `del d[k]` on a `dict`. -/
def dictRemove (k : Nat) : List (Nat × String) → List (Nat × String)
  | [] => []
  | (k', v') :: rest =>
      if k' = k then rest else (k', v') :: dictRemove k rest

/-- `d.get(k)` on a `dict`. -/
def dictGet (k : Nat) (d : List (Nat × String)) : Option String :=
  (d.find? (fun p => p.1 = k)).map (·.2)

/-- `s.add(x)` on a `set`, modelled on a duplicate-free list. -/
def setAdd (x : String) (s : List String) : List String :=
  if x ∈ s then s else s ++ [x]

/-- `s.discard(x)` on a `set`. -/
def setDiscard (x : String) (s : List String) : List String :=
  s.filter (fun y => y ≠ x)

/-! ## The monitor state (`LogDirectoryMonitor`) -/

/-- The mutable registry state of `LogDirectoryMonitor`:
`watch_descriptors` (wd → directory path dict) and `monitored_dirs`
(set of directory paths). -/
structure MonitorState where
  watch_descriptors : List (Nat × String)
  monitored_dirs : List String
deriving DecidableEq, Repr

/-- The state right after `__init__`: both structures empty. -/
def MonitorState.initial : MonitorState := ⟨[], []⟩

/-- Outcome of the `inotify.add_watch` call, as seen by `add_directory`'s
`try`/`except` blocks: a watch descriptor on success, or one of the two
caught exception classes. -/
inductive WatchResult where
  | ok (wd : Nat)
  | permissionError
  | otherError
deriving DecidableEq, Repr

/-- `LogDirectoryMonitor.add_directory`.  `isdir` is the oracle answer of
`os.path.isdir(directory)`, `watch` the oracle outcome of
`inotify.add_watch`.  Returns the Python boolean result and the new state.
The two state mutations happen only after `add_watch` returned a
descriptor, mirroring the statement order in the source. -/
def add_directory (directory : String) (isdir : Bool) (watch : WatchResult)
    (s : MonitorState) : Bool × MonitorState :=
  if ¬ isdir then
    (false, s)
  else if directory ∈ s.monitored_dirs then
    (true, s)
  else
    match watch with
    | .ok wd =>
        (true,
          { watch_descriptors := dictInsert wd directory s.watch_descriptors,
            monitored_dirs := setAdd directory s.monitored_dirs })
    | .permissionError => (false, s)
    | .otherError => (false, s)

/-- `LogDirectoryMonitor.remove_directory`.  Scans `watch_descriptors` in
iteration (insertion) order for the first entry whose path equals
`directory`; if found, unsubscribes (`rmOk` is the oracle for whether
`inotify.rm_watch` raised), deletes the dict entry and discards the path
from `monitored_dirs`.  If `rm_watch` raised, the `except` clause returns
`False` with no mutation having happened. -/
def remove_directory (directory : String) (rmOk : Bool) (s : MonitorState) :
    Bool × MonitorState :=
  match s.watch_descriptors.find? (fun p => p.2 = directory) with
  | some (wd, _) =>
      if rmOk then
        (true,
          { watch_descriptors := dictRemove wd s.watch_descriptors,
            monitored_dirs := setDiscard directory s.monitored_dirs })
      else (false, s)
  | none => (false, s)

/-- One registry operation together with its oracle answers. -/
inductive Op where
  | add (directory : String) (isdir : Bool) (watch : WatchResult)
  | remove (directory : String) (rmOk : Bool)
deriving DecidableEq, Repr

/-- Apply one operation to the state, discarding the boolean result. -/
def applyOp (s : MonitorState) : Op → MonitorState
  | .add directory isdir watch => (add_directory directory isdir watch s).2
  | .remove directory rmOk => (remove_directory directory rmOk s).2

/-- Run a sequence of operations from the freshly initialised monitor. -/
def runOps (ops : List Op) : MonitorState :=
  ops.foldl applyOp MonitorState.initial

/-! ## The registry invariant -/

/-- The bijection invariant on the registry, together with the auxiliary
facts needed to preserve it: dict keys pairwise distinct, dict values
pairwise distinct, and every dict value recorded in `monitored_dirs`. -/
structure RegistryInv (s : MonitorState) : Prop where
  keysNodup : (s.watch_descriptors.map Prod.fst).Nodup
  valuesNodup : (s.watch_descriptors.map Prod.snd).Nodup
  valuesSub : ∀ p ∈ s.watch_descriptors, p.2 ∈ s.monitored_dirs

theorem dictInsert_keys_of_mem (k : Nat) (v : String) :
    ∀ d : List (Nat × String), k ∈ d.map Prod.fst →
      (dictInsert k v d).map Prod.fst = d.map Prod.fst := by
  intro d
  induction d with
  | nil => simp
  | cons p rest ih =>
      intro hmem
      by_cases hk : p.1 = k
      · simp [dictInsert, hk]
      · obtain ⟨k', v'⟩ := p
        simp only [List.map_cons, List.mem_cons] at hmem
        simp only at hk
        rcases hmem with h | h
        · exact absurd h.symm hk
        · simp [dictInsert, hk, ih h]

theorem dictInsert_keys_of_not_mem (k : Nat) (v : String) :
    ∀ d : List (Nat × String), k ∉ d.map Prod.fst →
      (dictInsert k v d).map Prod.fst = d.map Prod.fst ++ [k] := by
  intro d
  induction d with
  | nil => simp [dictInsert]
  | cons p rest ih =>
      intro hmem
      obtain ⟨k', v'⟩ := p
      simp only [List.map_cons, List.mem_cons] at hmem
      push_neg at hmem
      rw [dictInsert, if_neg (fun h => hmem.1 h.symm)]
      simp [ih hmem.2]

theorem dictInsert_values_subset (k : Nat) (v : String) :
    ∀ d : List (Nat × String), ∀ w ∈ (dictInsert k v d).map Prod.snd,
      w = v ∨ w ∈ d.map Prod.snd := by
  intro d
  induction d with
  | nil => simp [dictInsert]
  | cons p rest ih =>
      intro w hw
      obtain ⟨k', v'⟩ := p
      by_cases hk : k' = k
      · simp only [dictInsert, if_pos hk, List.map_cons, List.mem_cons] at hw
        rcases hw with h | h
        · exact Or.inl h
        · exact Or.inr (by simp [h])
      · simp only [dictInsert, if_neg hk, List.map_cons, List.mem_cons] at hw
        rcases hw with h | h
        · exact Or.inr (by simp [h])
        · rcases ih w h with h' | h'
          · exact Or.inl h'
          · exact Or.inr (by simp [h'])

theorem dictInsert_values_nodup (k : Nat) (v : String) :
    ∀ d : List (Nat × String), (d.map Prod.snd).Nodup → v ∉ d.map Prod.snd →
      ((dictInsert k v d).map Prod.snd).Nodup := by
  intro d
  induction d with
  | nil => intro _ _; simp [dictInsert]
  | cons p rest ih =>
      intro hnd hv
      obtain ⟨k', v'⟩ := p
      simp only [List.map_cons, List.nodup_cons] at hnd
      simp only [List.map_cons, List.mem_cons] at hv
      push_neg at hv
      by_cases hk : k' = k
      · simp only [dictInsert, if_pos hk, List.map_cons, List.nodup_cons]
        exact ⟨hv.2, hnd.2⟩
      · simp only [dictInsert, if_neg hk, List.map_cons, List.nodup_cons]
        refine ⟨?_, ih hnd.2 hv.2⟩
        intro hmem
        rcases dictInsert_values_subset k v rest v' hmem with h | h
        · exact hv.1 h.symm
        · exact hnd.1 h

theorem dictRemove_sublist (k : Nat) :
    ∀ d : List (Nat × String), (dictRemove k d).Sublist d := by
  intro d
  induction d with
  | nil => simp [dictRemove]
  | cons p rest ih =>
      obtain ⟨k', v'⟩ := p
      by_cases hk : k' = k
      · rw [dictRemove, if_pos hk]
        exact List.sublist_cons_self (k', v') rest
      · simpa [dictRemove, hk] using ih.cons₂ (k', v')

theorem dictRemove_not_mem_key (k : Nat) :
    ∀ d : List (Nat × String), (d.map Prod.fst).Nodup →
      ∀ p ∈ dictRemove k d, p.1 ≠ k := by
  intro d
  induction d with
  | nil => simp [dictRemove]
  | cons q rest ih =>
      intro hnd p hp
      obtain ⟨qk, qv⟩ := q
      simp only [List.map_cons, List.nodup_cons] at hnd
      by_cases hk : qk = k
      · rw [dictRemove, if_pos hk] at hp
        intro hpk
        exact hnd.1 (hk ▸ hpk ▸ List.mem_map_of_mem Prod.fst hp)
      · rw [dictRemove, if_neg hk] at hp
        rcases List.mem_cons.mp hp with h | h
        · intro hpk
          apply hk
          rw [h] at hpk
          exact hpk
        · exact ih hnd.2 p h

/-! Branch equations for `add_directory` and `remove_directory`, mirroring
the control flow of the source. -/

/-- The `os.path.isdir` check fails: return `False`, no mutation. -/
theorem add_directory_not_isdir (directory : String) (watch : WatchResult)
    (s : MonitorState) :
    add_directory directory false watch s = (false, s) := by
  simp [add_directory]

/-- The directory is already monitored: return `True`, no mutation. -/
theorem add_directory_already (directory : String) (watch : WatchResult)
    (s : MonitorState) (hm : directory ∈ s.monitored_dirs) :
    add_directory directory true watch s = (true, s) := by
  simp [add_directory, hm]

/-- New directory, `add_watch` returns descriptor `wd`: both structures
are updated and `True` is returned. -/
theorem add_directory_new_ok (directory : String) (wd : Nat)
    (s : MonitorState) (hm : directory ∉ s.monitored_dirs) :
    add_directory directory true (.ok wd) s =
      (true,
        { watch_descriptors := dictInsert wd directory s.watch_descriptors,
          monitored_dirs := setAdd directory s.monitored_dirs }) := by
  simp [add_directory, hm]

/-- New directory, `add_watch` raises: `except` returns `False`, and since
both mutations are ordered after the `add_watch` call, no mutation has
happened. -/
theorem add_directory_new_raised (directory : String) (watch : WatchResult)
    (s : MonitorState) (hm : directory ∉ s.monitored_dirs)
    (hw : ∀ wd, watch ≠ .ok wd) :
    add_directory directory true watch s = (false, s) := by
  cases watch with
  | ok wd => exact absurd rfl (hw wd)
  | permissionError => simp [add_directory, hm]
  | otherError => simp [add_directory, hm]

/-- No entry of `watch_descriptors` has the requested path: return
`False`, no mutation. -/
theorem remove_directory_not_found (directory : String) (rmOk : Bool)
    (s : MonitorState)
    (h : s.watch_descriptors.find? (fun p => p.2 = directory) = none) :
    remove_directory directory rmOk s = (false, s) := by
  simp [remove_directory, h]

/-- `add_directory` preserves the registry invariant, for every oracle
behaviour. -/
theorem add_directory_preserves_inv (directory : String) (isdir : Bool)
    (watch : WatchResult) (s : MonitorState) (h : RegistryInv s) :
    RegistryInv (add_directory directory isdir watch s).2 := by
  cases isdir with
  | false => rw [add_directory_not_isdir]; exact h
  | true =>
      by_cases hm : directory ∈ s.monitored_dirs
      · rw [add_directory_already directory watch s hm]; exact h
      · cases watch with
        | ok wd =>
            rw [add_directory_new_ok directory wd s hm]
            refine ⟨?_, ?_, ?_⟩
            · by_cases hk : wd ∈ s.watch_descriptors.map Prod.fst
              · rw [dictInsert_keys_of_mem wd directory _ hk]
                exact h.keysNodup
              · rw [dictInsert_keys_of_not_mem wd directory _ hk]
                refine List.Nodup.append h.keysNodup (List.nodup_singleton wd) ?_
                intro a ha hb
                simp only [List.mem_singleton] at hb
                exact hk (hb ▸ ha)
            · have hv : directory ∉ s.watch_descriptors.map Prod.snd := by
                intro hmem
                obtain ⟨p, hp, hp2⟩ := List.mem_map.mp hmem
                exact hm (hp2 ▸ h.valuesSub p hp)
              exact dictInsert_values_nodup wd directory _ h.valuesNodup hv
            · intro p hp
              have := dictInsert_values_subset wd directory s.watch_descriptors p.2
                (List.mem_map_of_mem Prod.snd hp)
              rcases this with h' | h'
              · simp [setAdd, h', hm]
              · obtain ⟨q, hq, hq2⟩ := List.mem_map.mp h'
                have := h.valuesSub q hq
                rw [hq2] at this
                simp only [setAdd]
                split
                · exact this
                · exact List.mem_append_left _ this
        | permissionError =>
            rw [add_directory_new_raised directory _ s hm (by intro wd h; cases h)]
            exact h
        | otherError =>
            rw [add_directory_new_raised directory _ s hm (by intro wd h; cases h)]
            exact h

/-- `remove_directory` preserves the registry invariant, for every oracle
behaviour. -/
theorem remove_directory_preserves_inv (directory : String) (rmOk : Bool)
    (s : MonitorState) (h : RegistryInv s) :
    RegistryInv (remove_directory directory rmOk s).2 := by
  unfold remove_directory
  cases hfind : s.watch_descriptors.find? (fun p => p.2 = directory) with
  | none => simpa using h
  | some p =>
      obtain ⟨wd, path⟩ := p
      cases rmOk with
      | false => simpa using h
      | true =>
          simp only [if_pos rfl]
          have hsub := dictRemove_sublist wd s.watch_descriptors
          refine ⟨?_, ?_, ?_⟩
          · exact ((hsub.map Prod.fst).nodup h.keysNodup : _)
          · exact ((hsub.map Prod.snd).nodup h.valuesNodup : _)
          · intro q hq
            have hqs : q ∈ s.watch_descriptors := hsub.mem hq
            have hqm := h.valuesSub q hqs
            have hq2 : q.2 ≠ directory := by
              intro heq
              have hfound := List.find?_some hfind
              have hmemfound := List.mem_of_find?_eq_some hfind
              simp only [decide_eq_true_eq] at hfound
              have hqeq : q = (wd, path) :=
                List.inj_on_of_nodup_map h.valuesNodup hqs hmemfound
                  (by simp [hfound, heq])
              have := dictRemove_not_mem_key wd s.watch_descriptors h.keysNodup q hq
              rw [hqeq] at this
              exact this rfl
            simp [setDiscard, List.mem_filter, hqm, hq2]

theorem foldl_applyOp_inv (ops : List Op) (s : MonitorState)
    (h : RegistryInv s) : RegistryInv (ops.foldl applyOp s) := by
  induction ops generalizing s with
  | nil => exact h
  | cons op rest ih =>
      refine ih (applyOp s op) ?_
      cases op with
      | add d i w => exact add_directory_preserves_inv d i w s h
      | remove d r => exact remove_directory_preserves_inv d r s h

theorem runOps_inv (ops : List Op) : RegistryInv (runOps ops) := by
  refine foldl_applyOp_inv ops MonitorState.initial ?_
  refine ⟨?_, ?_, ?_⟩ <;> simp [MonitorState.initial]

/-- C1: after any sequence of `add_directory` / `remove_directory`
operations (with arbitrary oracle behaviour), the `watch_descriptors`
mapping is a bijection on the active watch set: no watch descriptor is
mapped to two directory paths, and no directory path is mapped to two
watch descriptors. -/
theorem watch_descriptors_bijective (ops : List Op) :
    ((runOps ops).watch_descriptors.map Prod.fst).Nodup ∧
    ((runOps ops).watch_descriptors.map Prod.snd).Nodup :=
  ⟨(runOps_inv ops).keysNodup, (runOps_inv ops).valuesNodup⟩

/-- C6: if `os.path.isdir` answers `False` for the path, `add_directory`
reports failure, performs no subscription (the result does not depend on
the `add_watch` oracle at all), and leaves the registry unchanged. -/
theorem add_directory_not_a_directory_fails (directory : String)
    (watch : WatchResult) (s : MonitorState) :
    (add_directory directory false watch s).1 = false ∧
    (add_directory directory false watch s).2 = s := by
  rw [add_directory_not_isdir]
  exact ⟨rfl, rfl⟩

/-- C7: adding a directory that is already monitored reports success,
performs no second subscription (the result does not depend on the
`add_watch` oracle), and leaves both registry structures unchanged. -/
theorem add_directory_already_watched_noop (directory : String)
    (watch : WatchResult) (s : MonitorState)
    (hm : directory ∈ s.monitored_dirs) :
    (add_directory directory true watch s).1 = true ∧
    (add_directory directory true watch s).2 = s := by
  rw [add_directory_already directory watch s hm]
  exact ⟨rfl, rfl⟩

/-- Witness for C7 at a concrete state. -/
theorem add_directory_already_watched_noop_witness :
    "/var/log" ∈ (MonitorState.mk [(1, "/var/log")] ["/var/log"]).monitored_dirs ∧
    (add_directory "/var/log" true (.ok 2)
        (MonitorState.mk [(1, "/var/log")] ["/var/log"])).1 = true ∧
    (add_directory "/var/log" true (.ok 2)
        (MonitorState.mk [(1, "/var/log")] ["/var/log"])).2 =
      MonitorState.mk [(1, "/var/log")] ["/var/log"] :=
  ⟨by simp,
   add_directory_already_watched_noop "/var/log" (.ok 2)
     (MonitorState.mk [(1, "/var/log")] ["/var/log"]) (by simp)⟩

/-- C8: removing a path that no registry entry maps to reports `False`
without raising, performs no unsubscription (the result does not depend
on the `rm_watch` oracle), and leaves the registry unchanged. -/
theorem remove_directory_not_watched_noop (directory : String)
    (rmOk : Bool) (s : MonitorState)
    (h : ∀ p ∈ s.watch_descriptors, p.2 ≠ directory) :
    (remove_directory directory rmOk s).1 = false ∧
    (remove_directory directory rmOk s).2 = s := by
  rw [remove_directory_not_found directory rmOk s
    (List.find?_eq_none.mpr (fun p hp => by simpa using h p hp))]
  exact ⟨rfl, rfl⟩

/-- Witness for C8 at a concrete state. -/
theorem remove_directory_not_watched_noop_witness :
    (∀ p ∈ (MonitorState.mk [(1, "/var/log")] ["/var/log"]).watch_descriptors,
        p.2 ≠ "/tmp/logs") ∧
    (remove_directory "/tmp/logs" true
        (MonitorState.mk [(1, "/var/log")] ["/var/log"])).1 = false ∧
    (remove_directory "/tmp/logs" true
        (MonitorState.mk [(1, "/var/log")] ["/var/log"])).2 =
      MonitorState.mk [(1, "/var/log")] ["/var/log"] :=
  ⟨by simp,
   remove_directory_not_watched_noop "/tmp/logs" true
     (MonitorState.mk [(1, "/var/log")] ["/var/log"]) (by simp)⟩

/-- C10: when the subscription call is actually reached (the path is a
directory and not yet monitored) and `add_watch` raises — with a
`PermissionError` or any other exception — `add_directory` reports
failure and both `watch_descriptors` and `monitored_dirs` are exactly as
before the call: the mutations are ordered after a successful
subscription. -/
theorem add_directory_subscription_failure_unchanged (directory : String)
    (watch : WatchResult) (s : MonitorState)
    (hm : directory ∉ s.monitored_dirs) (hw : ∀ wd, watch ≠ .ok wd) :
    (add_directory directory true watch s).1 = false ∧
    (add_directory directory true watch s).2.watch_descriptors =
      s.watch_descriptors ∧
    (add_directory directory true watch s).2.monitored_dirs =
      s.monitored_dirs := by
  rw [add_directory_new_raised directory watch s hm hw]
  exact ⟨rfl, rfl, rfl⟩

/-- Witness for C10 at a concrete state, with `add_watch` raising a
`PermissionError`. -/
theorem add_directory_subscription_failure_unchanged_witness :
    "/root/secret" ∉ (MonitorState.mk [(1, "/var/log")] ["/var/log"]).monitored_dirs ∧
    (∀ wd, WatchResult.permissionError ≠ .ok wd) ∧
    (add_directory "/root/secret" true .permissionError
        (MonitorState.mk [(1, "/var/log")] ["/var/log"])).1 = false ∧
    (add_directory "/root/secret" true .permissionError
        (MonitorState.mk [(1, "/var/log")] ["/var/log"])).2.watch_descriptors =
      [(1, "/var/log")] ∧
    (add_directory "/root/secret" true .permissionError
        (MonitorState.mk [(1, "/var/log")] ["/var/log"])).2.monitored_dirs =
      ["/var/log"] :=
  ⟨by simp, fun _ h => WatchResult.noConfusion h,
   add_directory_subscription_failure_unchanged "/root/secret"
     .permissionError (MonitorState.mk [(1, "/var/log")] ["/var/log"])
     (by simp) (fun _ h => WatchResult.noConfusion h)⟩

/-! ## Event translation (`LogDirectoryMonitor._process_event`) -/

/- The inotify event-class bits used by the monitor (values of
`inotify_simple.flags`, the Linux `IN_*` constants). -/
namespace flags

def CREATE : Nat := 256
def MODIFY : Nat := 2
def DELETE : Nat := 512
def MOVED_TO : Nat := 128
def MOVED_FROM : Nat := 64
def CLOSE_WRITE : Nat := 8

end flags

/-- A raw inotify event: watch descriptor, mask, relative file name. -/
structure RawEvent where
  wd : Nat
  mask : Nat
  name : String
deriving DecidableEq, Repr

/-- `os.path.join(a, b)` for a non-empty `a` without trailing slash and a
relative `b`, the only shape the program produces. -/
def pathJoin (a b : String) : String := a ++ "/" ++ b

/-- The `event_types` list built by `_process_event`: one membership test
per class, in the order written in the source. -/
def eventTypes (mask : Nat) : List String :=
  (if mask &&& flags.CREATE ≠ 0 then ["CREATE"] else []) ++
  (if mask &&& flags.MODIFY ≠ 0 then ["MODIFY"] else []) ++
  (if mask &&& flags.DELETE ≠ 0 then ["DELETE"] else []) ++
  (if mask &&& flags.MOVED_TO ≠ 0 then ["MOVED_TO"] else []) ++
  (if mask &&& flags.MOVED_FROM ≠ 0 then ["MOVED_FROM"] else []) ++
  (if mask &&& flags.CLOSE_WRITE ≠ 0 then ["CLOSE_WRITE"] else [])

/-- `'|'.join(event_types) if event_types else 'UNKNOWN'`. -/
def eventTypeOf (mask : Nat) : String :=
  if eventTypes mask = [] then "UNKNOWN"
  else String.intercalate "|" (eventTypes mask)

/-- `LogDirectoryMonitor._process_event`.  `pathexists` and `getsize` are
the filesystem oracles for `os.path.exists` and `_get_file_size` (the
latter returns `none` when `os.path.getsize` raised); `now` is the
timestamp captured at translation time.  Note Python's
`if not directory:` is also taken when the stored path is the empty
string. -/
def process_event (s : MonitorState) (pathexists : String → Bool)
    (getsize : String → Option Nat) (now : String) (e : RawEvent) :
    Option LogEvent :=
  match dictGet e.wd s.watch_descriptors with
  | none => none
  | some directory =>
      if directory = "" then none
      else
        let full_path := pathJoin directory e.name
        let file_size := if pathexists full_path then getsize full_path else none
        some ⟨now, directory, e.name, eventTypeOf e.mask, file_size⟩

/-- The spec's event-class vocabulary in its declared order, paired with
the mask bits. -/
def eventClassOrder : List (String × Nat) :=
  [("CREATE", flags.CREATE), ("MODIFY", flags.MODIFY),
   ("DELETE", flags.DELETE), ("MOVED_TO", flags.MOVED_TO),
   ("MOVED_FROM", flags.MOVED_FROM), ("CLOSE_WRITE", flags.CLOSE_WRITE)]

/-- The event type as the spec words it: the recognized classes present in
the mask, kept in the declared vocabulary order, joined by `|`; the
literal `UNKNOWN` when none is present. -/
def specEventType (mask : Nat) : String :=
  if (eventClassOrder.filter (fun c => mask &&& c.2 ≠ 0)).map Prod.fst = []
  then "UNKNOWN"
  else String.intercalate "|"
    ((eventClassOrder.filter (fun c => mask &&& c.2 ≠ 0)).map Prod.fst)

theorem eventTypes_eq_filter (mask : Nat) :
    eventTypes mask =
      (eventClassOrder.filter (fun c => mask &&& c.2 ≠ 0)).map Prod.fst := by
  simp only [eventTypes, eventClassOrder, List.filter_cons, List.filter_nil]
  by_cases h1 : mask &&& flags.CREATE ≠ 0 <;>
    by_cases h2 : mask &&& flags.MODIFY ≠ 0 <;>
    by_cases h3 : mask &&& flags.DELETE ≠ 0 <;>
    by_cases h4 : mask &&& flags.MOVED_TO ≠ 0 <;>
    by_cases h5 : mask &&& flags.MOVED_FROM ≠ 0 <;>
    by_cases h6 : mask &&& flags.CLOSE_WRITE ≠ 0 <;>
    simp [h1, h2, h3, h4, h5, h6]

theorem eventTypeOf_eq_spec (mask : Nat) :
    eventTypeOf mask = specEventType mask := by
  rw [eventTypeOf, specEventType, eventTypes_eq_filter]

/-- C3: whenever `_process_event` produces a `LogEvent`, its `event_type`
is exactly the recognized classes present in the mask, joined by `|` in
the fixed declared order CREATE, MODIFY, DELETE, MOVED_TO, MOVED_FROM,
CLOSE_WRITE, and the literal `UNKNOWN` when no recognized bit is set. -/
theorem process_event_event_type_spec (s : MonitorState)
    (pathexists : String → Bool) (getsize : String → Option Nat)
    (now : String) (e : RawEvent) (ev : LogEvent)
    (h : process_event s pathexists getsize now e = some ev) :
    ev.event_type = specEventType e.mask := by
  unfold process_event at h
  split at h
  · cases h
  · split at h
    · cases h
    · have := Option.some.inj h
      rw [← this]
      exact eventTypeOf_eq_spec e.mask

/-- Witness for C3: a raw event whose mask encodes CREATE and CLOSE_WRITE
(256 + 8 = 264) on a watched directory yields the event type
`CREATE|CLOSE_WRITE`, matching the spec-side translation. -/
theorem process_event_event_type_spec_witness :
    process_event (MonitorState.mk [(7, "/var/log/app")] ["/var/log/app"])
        (fun _ => true) (fun _ => some 128) "2024-01-01T00:00:00"
        ⟨7, 264, "out.log"⟩ =
      some ⟨"2024-01-01T00:00:00", "/var/log/app", "out.log",
        "CREATE|CLOSE_WRITE", some 128⟩ ∧
    LogEvent.event_type
        ⟨"2024-01-01T00:00:00", "/var/log/app", "out.log",
          "CREATE|CLOSE_WRITE", some 128⟩ = specEventType 264 :=
  ⟨by decide,
   process_event_event_type_spec
     (MonitorState.mk [(7, "/var/log/app")] ["/var/log/app"])
     (fun _ => true) (fun _ => some 128) "2024-01-01T00:00:00"
     ⟨7, 264, "out.log"⟩ _ (by decide)⟩

/-- C4: a raw event whose watch descriptor is absent from the registry is
silently dropped: `_process_event` returns `None` (and, being a total
function of its inputs, raises no fault). -/
theorem process_event_stale_handle (s : MonitorState)
    (pathexists : String → Bool) (getsize : String → Option Nat)
    (now : String) (e : RawEvent)
    (h : dictGet e.wd s.watch_descriptors = none) :
    process_event s pathexists getsize now e = none := by
  rw [process_event, h]

/-- Witness for C4: an event for descriptor 5 against the freshly
initialised (empty) registry is dropped. -/
theorem process_event_stale_handle_witness :
    dictGet 5 MonitorState.initial.watch_descriptors = none ∧
    process_event MonitorState.initial (fun _ => true) (fun _ => some 1)
      "t" ⟨5, 256, "x.log"⟩ = none :=
  ⟨rfl,
   process_event_stale_handle MonitorState.initial (fun _ => true)
     (fun _ => some 1) "t" ⟨5, 256, "x.log"⟩ rfl⟩

/-! ## Persisted output (`LogDirectoryMonitor._output_event`)

The source serializes each event with `json.dumps(log_event.to_dict(),
indent=2)` — a *pretty-printed* JSON object spanning several lines — and
appends it plus a trailing `'\n'` to the output file opened in mode
`'a'`. -/

/-- Hex digit used by the `\u00XX` escapes. -/
def hexDigit (n : Nat) : Char :=
  match n with
  | 0 => '0' | 1 => '1' | 2 => '2' | 3 => '3' | 4 => '4'
  | 5 => '5' | 6 => '6' | 7 => '7' | 8 => '8' | 9 => '9'
  | 10 => 'a' | 11 => 'b' | 12 => 'c' | 13 => 'd' | 14 => 'e' | _ => 'f'

/-- JSON string escaping as `json.dumps` performs it (default
`ensure_ascii` only matters beyond the control range; the program's
strings are paths and fixed tags). -/
def jsonEscapeChar (c : Char) : String :=
  if c = '"' then "\\\""
  else if c = '\\' then "\\\\"
  else if c = '\n' then "\\n"
  else if c = '\t' then "\\t"
  else if c = '\r' then "\\r"
  else if c = '\x08' then "\\b"
  else if c = '\x0c' then "\\f"
  else if c.toNat < 32 then
    "\\u00" ++ String.singleton (hexDigit (c.toNat / 16)) ++
      String.singleton (hexDigit (c.toNat % 16))
  else String.singleton c

def jsonEscapeList (cs : List Char) : String :=
  cs.foldr (fun c acc => jsonEscapeChar c ++ acc) ""

/-- A JSON string literal for `s`. -/
def jsonString (s : String) : String :=
  "\"" ++ jsonEscapeList s.data ++ "\""

def decDigit (d : Nat) : Char :=
  match d with
  | 0 => '0' | 1 => '1' | 2 => '2' | 3 => '3' | 4 => '4'
  | 5 => '5' | 6 => '6' | 7 => '7' | 8 => '8' | _ => '9'

/-- Decimal digits of `n`, most significant first. -/
def natToDigits (n : Nat) : List Char :=
  if _h : n < 10 then [decDigit n]
  else natToDigits (n / 10) ++ [decDigit (n % 10)]
termination_by n
decreasing_by exact Nat.div_lt_self (by omega) (by omega)

theorem hexDigit_ne_newline (n : Nat) : hexDigit n ≠ '\n' := by
  unfold hexDigit
  split <;> decide

theorem decDigit_ne_newline (d : Nat) : decDigit d ≠ '\n' := by
  unfold decDigit
  split <;> decide

theorem singleton_count_newline_zero (c : Char) (h : c ≠ '\n') :
    (String.singleton c).data.count '\n' = 0 :=
  List.count_eq_zero.mpr (fun hc => h (List.mem_singleton.mp hc).symm)

/-- The JSON value for the `size` field: a decimal integer or `null`. -/
def jsonSize : Option Nat → String
  | none => "null"
  | some n => ⟨natToDigits n⟩

/-- `json.dumps(log_event.to_dict(), indent=2)`: the dict holds the five
dataclass fields in declaration order; with `indent=2` every member sits
on its own line. -/
def dumpsLogEvent (e : LogEvent) : String :=
  "\x7b\n  \"timestamp\": " ++ jsonString e.timestamp ++
  ",\n  \"path\": " ++ jsonString e.path ++
  ",\n  \"filename\": " ++ jsonString e.filename ++
  ",\n  \"event_type\": " ++ jsonString e.event_type ++
  ",\n  \"size\": " ++ jsonSize e.size ++ "\n\x7d"

/-- The file append performed by `_output_event` when an output file is
configured: `open(self.output_file, 'a')` followed by
`f.write(event_json + '\n')`.  The result is the new file content. -/
def output_event_file (output_file : Option String) (content : String)
    (e : LogEvent) : String :=
  match output_file with
  | none => content
  | some _ => content ++ (dumpsLogEvent e ++ "\n")

/-- Number of newline characters in a string. -/
def newlineCount (s : String) : Nat := s.data.count '\n'

theorem jsonEscapeChar_no_newline (c : Char) :
    (jsonEscapeChar c).data.count '\n' = 0 := by
  have h9 : ∀ m : Nat, (String.singleton (hexDigit m)).data.count '\n' = 0 :=
    fun m => singleton_count_newline_zero _ (hexDigit_ne_newline m)
  rw [jsonEscapeChar]
  split_ifs with h1 h2 h3 h4 h5 h6 h7 h8
  · rfl
  · rfl
  · rfl
  · rfl
  · rfl
  · rfl
  · rfl
  · rw [String.data_append, String.data_append, List.count_append,
      List.count_append, h9, h9]
    decide
  · exact singleton_count_newline_zero c h3

theorem jsonEscapeList_no_newline (cs : List Char) :
    (jsonEscapeList cs).data.count '\n' = 0 := by
  induction cs with
  | nil => rfl
  | cons c rest ih =>
      show ((jsonEscapeChar c ++ jsonEscapeList rest).data.count '\n') = 0
      rw [String.data_append, List.count_append, ih,
        jsonEscapeChar_no_newline]

theorem jsonString_no_newline (s : String) :
    (jsonString s).data.count '\n' = 0 := by
  rw [jsonString, String.data_append, String.data_append,
    List.count_append, List.count_append, jsonEscapeList_no_newline]
  rfl

theorem natToDigits_no_newline (n : Nat) :
    (natToDigits n).count '\n' = 0 := by
  induction n using Nat.strong_induction_on with
  | _ n ih =>
      rw [natToDigits]
      split_ifs with h
      · exact List.count_eq_zero.mpr
          (fun hc => decDigit_ne_newline _ (List.mem_singleton.mp hc).symm)
      · rw [List.count_append,
          ih (n / 10) (Nat.div_lt_self (by omega) (by omega)),
          Nat.zero_add]
        exact List.count_eq_zero.mpr
          (fun hc => decDigit_ne_newline _ (List.mem_singleton.mp hc).symm)

theorem jsonSize_no_newline (o : Option Nat) :
    (jsonSize o).data.count '\n' = 0 := by
  cases o with
  | none => rfl
  | some n => exact natToDigits_no_newline n

/-- Each serialized record spans seven lines: it contains exactly six
newline characters, one before every member line and one before the
closing brace. -/
theorem dumpsLogEvent_newlines (e : LogEvent) :
    newlineCount (dumpsLogEvent e) = 6 := by
  rw [newlineCount, dumpsLogEvent]
  simp only [String.data_append, List.count_append,
    jsonString_no_newline, jsonSize_no_newline]
  rfl

/-- A concrete event as in the spec's scenario. -/
def sampleEvent : LogEvent :=
  ⟨"2024-01-01T00:00:00", "/var/log/app", "out.log",
    "CREATE|CLOSE_WRITE", some 128⟩

/-- Counterexample to C2 as stated: at a concrete event, the chunk
appended to the output file is the pretty-printed record plus a trailing
newline; the record itself contains six newline characters, so the
appended record does not occupy exactly one line. -/
theorem output_record_one_line_counterexample :
    output_event_file (some "events.json") "" sampleEvent =
      dumpsLogEvent sampleEvent ++ "\n" ∧
    newlineCount (dumpsLogEvent sampleEvent) = 6 ∧
    ¬ newlineCount (dumpsLogEvent sampleEvent) = 0 := by
  refine ⟨rfl, dumpsLogEvent_newlines sampleEvent, ?_⟩
  rw [dumpsLogEvent_newlines sampleEvent]
  omega

/-- C2 amended: when an output file is configured, `_output_event` only
ever appends to it, and the appended chunk is the `indent=2`
pretty-printed JSON record — spanning seven lines (six embedded
newlines) — followed by one terminating newline, rather than a single
line. -/
theorem output_event_appends_multiline_record (file : String)
    (content : String) (e : LogEvent) :
    output_event_file (some file) content e =
      content ++ (dumpsLogEvent e ++ "\n") ∧
    newlineCount (dumpsLogEvent e) = 6 :=
  ⟨rfl, dumpsLogEvent_newlines e⟩

/-! ## Directory discovery (`LogDirectoryDiscovery`)

The filesystem is a structure of oracles.  `listdir` returning `none`
models `os.listdir` raising `PermissionError`.  Nothing constrains the
oracles, so arbitrarily deep and symlink-cyclic filesystems are
included. -/

structure FS where
  listdir : String → Option (List String)
  isdir : String → Bool
  isfile : String → Bool
  pathexists : String → Bool

def LOG_EXTENSIONS : List String :=
  [".log", ".txt", ".out", ".err", ".access", ".error", ".debug", ".info"]

def LOG_KEYWORDS : List String :=
  ["log", "access", "error", "debug", "audit"]

/-- Python's substring test `needle in hay`. -/
def containsSub (needle hay : String) : Bool :=
  hay.data.tails.any (fun t => needle.data.isPrefixOf t)

/-- `LogDirectoryDiscovery._contains_log_files`: some immediate entry is a
file whose name ends with a log extension or whose lower-cased name
contains a log keyword; `PermissionError` yields `False`. -/
def _contains_log_files (fs : FS) (directory : String) : Bool :=
  match fs.listdir directory with
  | none => false
  | some items =>
      items.any (fun item =>
        fs.isfile (pathJoin directory item) &&
        (LOG_EXTENSIONS.any (fun ext => item.endsWith ext) ||
         LOG_KEYWORDS.any (fun kw => containsSub kw item.toLower)))

/-- `LogDirectoryDiscovery._discover_nested_log_dirs(directory,
found_dirs, max_depth, current_depth)`.  The recursion parameter is the
remaining depth budget `fuel = max_depth - current_depth`: the source's
guard `current_depth >= max_depth` is `fuel = 0`, and the recursive call
at `current_depth + 1` decrements it.  Each subdirectory is added when it
contains log-like files and recursed into either way; `PermissionError`
on the listing aborts this branch only. -/
def _discover_nested_log_dirs (fs : FS) : Nat → String → List String → List String
  | 0, _, found_dirs => found_dirs
  | fuel + 1, directory, found_dirs =>
      match fs.listdir directory with
      | none => found_dirs
      | some items =>
          items.foldl (fun acc item =>
            let item_path := pathJoin directory item
            if fs.isdir item_path then
              _discover_nested_log_dirs fs fuel item_path
                (if _contains_log_files fs item_path then setAdd item_path acc
                 else acc)
            else acc) found_dirs

/-- `os.path.expanduser` for the one shape the seed list uses (a leading
`~` abbreviating the home directory). -/
def expanduser (home : String) (p : String) : String :=
  if p.startsWith "~" then home ++ p.drop 1 else p

def STANDARD_LOG_DIRS : List String :=
  ["/var/log", "/var/log/apache2", "/var/log/nginx", "/var/log/mysql",
   "/var/log/postgresql", "/var/log/syslog", "/var/log/auth",
   "/var/log/kern", "/var/log/mail", "/var/log/cron", "/var/log/daemon",
   "/var/log/user", "/var/log/messages", "/var/log/docker",
   "/var/log/pods", "/var/log/containers", "/opt/*/logs",
   "/usr/local/*/logs", "/tmp/logs", "/home/*/logs",
   "~/.local/share/logs", "/var/log/journal"]

/-- Processing of one entry of `STANDARD_LOG_DIRS` in
`discover_log_directories`: wildcard templates list the parent and keep
each `<parent>/<child>/logs` that is a directory; plain templates are
kept when they are directories.  `PermissionError` while listing the
parent contributes nothing. -/
def expandStandardDir (fs : FS) (home : String) (log_dir : String)
    (acc : List String) : List String :=
  let expanded_path := expanduser home log_dir
  if expanded_path.contains '*' then
    let parent_dir :=
      ((expanded_path.splitOn "*").headD "").dropRightWhile (fun c => c = '/')
    if fs.pathexists parent_dir then
      match fs.listdir parent_dir with
      | none => acc
      | some items =>
          items.foldl (fun a item =>
            let full_path := pathJoin (pathJoin parent_dir item) "logs"
            if fs.isdir full_path then setAdd full_path a else a) acc
    else acc
  else if fs.isdir expanded_path then setAdd expanded_path acc else acc

/-- The candidate set after phase 1 (seed expansion) of
`discover_log_directories`. -/
def seedSet (fs : FS) (home : String) : List String :=
  STANDARD_LOG_DIRS.foldl (fun acc d => expandStandardDir fs home d acc) []

/-- `LogDirectoryDiscovery.discover_log_directories`: seed expansion, then
nested discovery (max depth 2) seeded from a snapshot (`list(log_dirs)`)
of the phase-1 set, accumulating into the same set. -/
def discover_log_directories (fs : FS) (home : String) : List String :=
  let log_dirs := seedSet fs home
  log_dirs.foldl (fun acc d => _discover_nested_log_dirs fs 2 d acc) log_dirs

/-- Instrumentation of `_discover_nested_log_dirs`: the directories the
walk visits — every directory the function is invoked on (it is listed
and its subdirectories are tested when the budget allows).  Mirrors the
recursion structure of `_discover_nested_log_dirs` exactly. -/
def nestedVisited (fs : FS) : Nat → String → List String
  | 0, directory => [directory]
  | fuel + 1, directory =>
      directory ::
        (match fs.listdir directory with
         | none => []
         | some items =>
             items.foldl (fun acc item =>
               acc ++
                 (if fs.isdir (pathJoin directory item) then
                    nestedVisited fs fuel (pathJoin directory item)
                  else [])) [])

/-! ### Membership reasoning for the accumulator folds -/

theorem mem_setAdd (x : String) (s : List String) (p : String) :
    p ∈ setAdd x s ↔ p = x ∨ p ∈ s := by
  rw [setAdd]
  split_ifs with h
  · constructor
    · exact Or.inr
    · rintro (rfl | hp)
      · exact h
      · exact hp
  · rw [List.mem_append, List.mem_singleton, or_comm]

/-- Membership in a left fold that only ever grows its accumulator:
`f acc x` holds the old elements plus those satisfying `Q x ·`. -/
theorem mem_foldl_acc {α β : Type} (f : List β → α → List β)
    (Q : α → β → Prop)
    (hg : ∀ acc x p, p ∈ f acc x ↔ p ∈ acc ∨ Q x p) (l : List α) :
    ∀ (init : List β) (p : β),
      p ∈ l.foldl f init ↔ p ∈ init ∨ ∃ x ∈ l, Q x p := by
  induction l with
  | nil => simp
  | cons a l ih =>
      intro init p
      rw [List.foldl_cons, ih, hg]
      constructor
      · rintro ((h | h) | ⟨x, hx, hq⟩)
        · exact Or.inl h
        · exact Or.inr ⟨a, List.mem_cons_self a l, h⟩
        · exact Or.inr ⟨x, List.mem_cons_of_mem a hx, hq⟩
      · rintro (h | ⟨x, hx, hq⟩)
        · exact Or.inl (Or.inl h)
        · rcases List.mem_cons.mp hx with rfl | hx'
          · exact Or.inl (Or.inr hq)
          · exact Or.inr ⟨x, hx', hq⟩

/-! ### C5: the depth bound on nested discovery -/

theorem self_mem_nestedVisited (fs : FS) (fuel : Nat) (dir : String) :
    dir ∈ nestedVisited fs fuel dir := by
  cases fuel with
  | zero => exact List.mem_singleton.mpr rfl
  | succ fuel => exact List.mem_cons_self _ _

theorem nestedVisited_chars (fs : FS) :
    ∀ (fuel : Nat) (dir p : String), p ∈ nestedVisited fs fuel dir →
      ∃ comps : List String, p = comps.foldl pathJoin dir ∧
        comps.length ≤ fuel := by
  intro fuel
  induction fuel with
  | zero =>
      intro dir p hp
      rcases List.mem_singleton.mp hp with rfl
      exact ⟨[], rfl, Nat.le_refl 0⟩
  | succ fuel ih =>
      intro dir p hp
      rw [nestedVisited] at hp
      rcases List.mem_cons.mp hp with rfl | hp'
      · exact ⟨[], rfl, Nat.zero_le _⟩
      · rcases hl : fs.listdir dir with _ | items
        · rw [hl] at hp'
          cases hp'
        · rw [hl] at hp'
          rw [mem_foldl_acc _
            (fun item q => fs.isdir (pathJoin dir item) = true ∧
              q ∈ nestedVisited fs fuel (pathJoin dir item))
            (fun acc item q => by
              rw [List.mem_append]
              constructor
              · rintro (h | h)
                · exact Or.inl h
                · rcases hdir : fs.isdir (pathJoin dir item) with _ | _
                  · rw [hdir] at h
                    cases h
                  · rw [hdir] at h
                    exact Or.inr ⟨hdir, by simpa using h⟩
              · rintro (h | ⟨hdir, h⟩)
                · exact Or.inl h
                · exact Or.inr (by rw [hdir]; simpa using h))
            items [] p] at hp'
          rcases hp' with h | ⟨item, _, _, hvis⟩
          · cases h
          · obtain ⟨comps, hcomp, hlen⟩ := ih (pathJoin dir item) p hvis
            exact ⟨item :: comps, hcomp, Nat.succ_le_succ hlen⟩

/-- C5: the nested-discovery walk always terminates (it is a total
function of the filesystem oracle, cycles included) and, started on a
seed with `max_depth = 2` at depth 0, never visits a directory more than
2 levels below the seed: every visited path extends the seed by at most 2
path components. -/
theorem nested_discovery_depth_bound (fs : FS) (seed p : String)
    (h : p ∈ nestedVisited fs 2 seed) :
    ∃ comps : List String, p = comps.foldl pathJoin seed ∧
      comps.length ≤ 2 :=
  nestedVisited_chars fs 2 seed p h

/-- Witness for C5 on a concrete two-level filesystem. -/
theorem nested_discovery_depth_bound_witness :
    "/var/log/app" ∈ nestedVisited
        (FS.mk
          (fun q => if q = "/var/log" then some ["app"] else none)
          (fun q => q = "/var/log" || q = "/var/log/app")
          (fun _ => false) (fun _ => false))
        2 "/var/log" ∧
    ∃ comps : List String,
      "/var/log/app" = comps.foldl pathJoin "/var/log" ∧
      comps.length ≤ 2 :=
  ⟨by decide,
   nested_discovery_depth_bound
     (FS.mk
       (fun q => if q = "/var/log" then some ["app"] else none)
       (fun q => q = "/var/log" || q = "/var/log/app")
       (fun _ => false) (fun _ => false))
     "/var/log" "/var/log/app" (by decide)⟩

/-! ### C9: discovery returns the same set regardless of listing order

The membership in the discovery result is characterized by predicates
(`SeedHit`, `NestedHit`) that mention directory listings only through
membership — hence are invariant under permutation of every listing. -/

/-- `p` is added by the nested walk below `dir` with the given remaining
depth budget: some chain of listed subdirectories ends in a directory
containing log-like files. -/
inductive NestedHit (fs : FS) : Nat → String → String → Prop where
  | here {fuel : Nat} {dir : String} {items : List String} {item : String} :
      fs.listdir dir = some items → item ∈ items →
      fs.isdir (pathJoin dir item) = true →
      _contains_log_files fs (pathJoin dir item) = true →
      NestedHit fs (fuel + 1) dir (pathJoin dir item)
  | deeper {fuel : Nat} {dir : String} {items : List String} {item p : String} :
      fs.listdir dir = some items → item ∈ items →
      fs.isdir (pathJoin dir item) = true →
      NestedHit fs fuel (pathJoin dir item) p →
      NestedHit fs (fuel + 1) dir p

theorem discover_nested_mem (fs : FS) :
    ∀ (fuel : Nat) (dir : String) (found : List String) (p : String),
      p ∈ _discover_nested_log_dirs fs fuel dir found ↔
        p ∈ found ∨ NestedHit fs fuel dir p := by
  intro fuel
  induction fuel with
  | zero =>
      intro dir found p
      constructor
      · exact Or.inl
      · rintro (h | h)
        · exact h
        · cases h
  | succ fuel ih =>
      intro dir found p
      show p ∈ (match fs.listdir dir with
        | none => found
        | some items =>
            items.foldl (fun acc item =>
              if fs.isdir (pathJoin dir item) then
                _discover_nested_log_dirs fs fuel (pathJoin dir item)
                  (if _contains_log_files fs (pathJoin dir item) then
                     setAdd (pathJoin dir item) acc
                   else acc)
              else acc) found) ↔ _
      rcases hl : fs.listdir dir with _ | items
      · constructor
        · exact Or.inl
        · rintro (h | h)
          · exact h
          · cases h with
            | here hl' _ _ _ => rw [hl] at hl'; cases hl'
            | deeper hl' _ _ _ => rw [hl] at hl'; cases hl'
      · rw [mem_foldl_acc _
          (fun item q => fs.isdir (pathJoin dir item) = true ∧
            ((_contains_log_files fs (pathJoin dir item) = true ∧
                q = pathJoin dir item) ∨
             NestedHit fs fuel (pathJoin dir item) q))
          (fun acc item q => by
            by_cases hdir : fs.isdir (pathJoin dir item) = true
            · rw [if_pos hdir, ih]
              by_cases hcont :
                  _contains_log_files fs (pathJoin dir item) = true
              · rw [if_pos hcont, mem_setAdd]
                tauto
              · rw [if_neg hcont]
                tauto
            · rw [if_neg hdir]
              tauto)
          items found p]
        constructor
        · rintro (h | ⟨item, hitem, hdir, (⟨hcont, rfl⟩ | hdeep)⟩)
          · exact Or.inl h
          · exact Or.inr (NestedHit.here hl hitem hdir hcont)
          · exact Or.inr (NestedHit.deeper hl hitem hdir hdeep)
        · rintro (h | h)
          · exact Or.inl h
          · cases h with
            | here hl' hitem hdir hcont =>
                rw [hl] at hl'
                rcases Option.some.inj hl' with rfl
                exact Or.inr ⟨_, hitem, hdir, Or.inl ⟨hcont, rfl⟩⟩
            | deeper hl' hitem hdir hdeep =>
                rw [hl] at hl'
                rcases Option.some.inj hl' with rfl
                exact Or.inr ⟨_, hitem, hdir, Or.inr hdeep⟩

/-- The parent directory derived from a wildcard template:
`expanded_path.split('*')[0].rstrip('/')`. -/
def wildcardParent (home t : String) : String :=
  (((expanduser home t).splitOn "*").headD "").dropRightWhile
    (fun c => c = '/')

/-- `p` is contributed by seed template `t` in phase 1 of discovery. -/
def SeedHit (fs : FS) (home t p : String) : Prop :=
  if (expanduser home t).contains '*' then
    fs.pathexists (wildcardParent home t) = true ∧
    ∃ items, fs.listdir (wildcardParent home t) = some items ∧
      ∃ item ∈ items,
        fs.isdir (pathJoin (pathJoin (wildcardParent home t) item) "logs")
          = true ∧
        p = pathJoin (pathJoin (wildcardParent home t) item) "logs"
  else fs.isdir (expanduser home t) = true ∧ p = expanduser home t

theorem expandStandardDir_mem (fs : FS) (home t : String)
    (acc : List String) (p : String) :
    p ∈ expandStandardDir fs home t acc ↔
      p ∈ acc ∨ SeedHit fs home t p := by
  show p ∈ (if (expanduser home t).contains '*' then
      (if fs.pathexists (wildcardParent home t) then
        match fs.listdir (wildcardParent home t) with
        | none => acc
        | some items =>
            items.foldl (fun a item =>
              if fs.isdir
                  (pathJoin (pathJoin (wildcardParent home t) item) "logs")
              then setAdd
                  (pathJoin (pathJoin (wildcardParent home t) item) "logs") a
              else a) acc
      else acc)
    else if fs.isdir (expanduser home t) then
      setAdd (expanduser home t) acc
    else acc) ↔ _
  rw [SeedHit]
  split_ifs with hstar hex hdir
  · rcases hl : fs.listdir (wildcardParent home t) with _ | items
    · constructor
      · exact Or.inl
      · rintro (h | ⟨_, items, hl', _⟩)
        · exact h
        · cases hl'
    · rw [mem_foldl_acc _
        (fun item q =>
          fs.isdir (pathJoin (pathJoin (wildcardParent home t) item) "logs")
            = true ∧
          q = pathJoin (pathJoin (wildcardParent home t) item) "logs")
        (fun a item q => by
          by_cases hd : fs.isdir
              (pathJoin (pathJoin (wildcardParent home t) item) "logs") = true
          · rw [if_pos hd, mem_setAdd]
            tauto
          · rw [if_neg hd]
            tauto)
        items acc p]
      constructor
      · rintro (h | ⟨item, hitem, hd, rfl⟩)
        · exact Or.inl h
        · exact Or.inr ⟨hex, items, rfl, item, hitem, hd, rfl⟩
      · rintro (h | ⟨_, items', hl', item, hitem, hd, rfl⟩)
        · exact Or.inl h
        · rcases Option.some.inj hl' with rfl
          exact Or.inr ⟨item, hitem, hd, rfl⟩
  · constructor
    · exact Or.inl
    · rintro (h | ⟨hex', _⟩)
      · exact h
      · exact absurd hex' hex
  · rw [mem_setAdd]
    constructor
    · rintro (rfl | h)
      · exact Or.inr ⟨hdir, rfl⟩
      · exact Or.inl h
    · rintro (h | ⟨_, rfl⟩)
      · exact Or.inr h
      · exact Or.inl rfl
  · constructor
    · exact Or.inl
    · rintro (h | ⟨hdir', _⟩)
      · exact h
      · exact absurd hdir' hdir

theorem seedSet_mem (fs : FS) (home p : String) :
    p ∈ seedSet fs home ↔
      ∃ t ∈ STANDARD_LOG_DIRS, SeedHit fs home t p := by
  rw [seedSet, mem_foldl_acc _ (fun t q => SeedHit fs home t q)
    (fun acc t q => expandStandardDir_mem fs home t acc q)
    STANDARD_LOG_DIRS [] p]
  simp

/-- Membership characterization of the full discovery run. -/
theorem discover_mem (fs : FS) (home p : String) :
    p ∈ discover_log_directories fs home ↔
      (∃ t ∈ STANDARD_LOG_DIRS, SeedHit fs home t p) ∨
      ∃ s, (∃ t ∈ STANDARD_LOG_DIRS, SeedHit fs home t s) ∧
        NestedHit fs 2 s p := by
  show p ∈ (seedSet fs home).foldl
      (fun acc d => _discover_nested_log_dirs fs 2 d acc)
      (seedSet fs home) ↔ _
  rw [mem_foldl_acc _ (fun d q => NestedHit fs 2 d q)
    (fun acc d q => discover_nested_mem fs 2 d acc q)
    (seedSet fs home) (seedSet fs home) p]
  simp only [seedSet_mem]

/-- Two filesystem oracles representing the same filesystem state, up to
the (unspecified) enumeration order of each directory listing. -/
structure FSEquiv (fs fs' : FS) : Prop where
  isdir_eq : ∀ q, fs.isdir q = fs'.isdir q
  isfile_eq : ∀ q, fs.isfile q = fs'.isfile q
  pathexists_eq : ∀ q, fs.pathexists q = fs'.pathexists q
  listdir_none : ∀ q, fs.listdir q = none ↔ fs'.listdir q = none
  listdir_perm : ∀ q l l', fs.listdir q = some l → fs'.listdir q = some l' →
    l.Perm l'

theorem FSEquiv.symm {fs fs' : FS} (h : FSEquiv fs fs') : FSEquiv fs' fs :=
  ⟨fun q => (h.isdir_eq q).symm, fun q => (h.isfile_eq q).symm,
   fun q => (h.pathexists_eq q).symm, fun q => (h.listdir_none q).symm,
   fun q l l' hl hl' => (h.listdir_perm q l' l hl' hl).symm⟩

theorem FSEquiv.listdir_some {fs fs' : FS} (h : FSEquiv fs fs')
    {q : String} {l : List String} (hl : fs.listdir q = some l) :
    ∃ l', fs'.listdir q = some l' ∧ l.Perm l' := by
  rcases hl' : fs'.listdir q with _ | l'
  · rw [(h.listdir_none q).mpr hl'] at hl
    cases hl
  · exact ⟨l', rfl, h.listdir_perm q l l' hl hl'⟩

theorem any_perm_congr {α : Type} {l l' : List α} {f g : α → Bool}
    (hperm : l.Perm l') (hfg : ∀ x, f x = g x) : l.any f = l'.any g := by
  rcases hb : l'.any g with _ | _
  · rw [List.any_eq_false] at hb ⊢
    intro x hx
    rw [hfg x]
    exact hb x (hperm.mem_iff.mp hx)
  · obtain ⟨x, hx, hgx⟩ := List.any_eq_true.mp hb
    exact List.any_eq_true.mpr
      ⟨x, hperm.mem_iff.mpr hx, by rw [hfg x]; exact hgx⟩

theorem contains_log_files_equiv {fs fs' : FS} (h : FSEquiv fs fs')
    (d : String) : _contains_log_files fs d = _contains_log_files fs' d := by
  rw [_contains_log_files, _contains_log_files]
  rcases hl : fs.listdir d with _ | items
  · rw [(h.listdir_none d).mp hl]
  · obtain ⟨items', hl', hperm⟩ := h.listdir_some hl
    rw [hl']
    exact any_perm_congr hperm (fun item => by rw [h.isfile_eq])

theorem seedHit_mono {fs fs' : FS} (h : FSEquiv fs fs')
    (home t p : String) (hs : SeedHit fs home t p) :
    SeedHit fs' home t p := by
  rw [SeedHit] at hs ⊢
  split_ifs at hs ⊢ with hstar
  · obtain ⟨hex, items, hl, item, hitem, hdir, hp⟩ := hs
    obtain ⟨items', hl', hperm⟩ := h.listdir_some hl
    exact ⟨by rw [← h.pathexists_eq]; exact hex, items', hl',
      item, hperm.mem_iff.mp hitem,
      by rw [← h.isdir_eq]; exact hdir, hp⟩
  · exact ⟨by rw [← h.isdir_eq]; exact hs.1, hs.2⟩

theorem nestedHit_mono {fs fs' : FS} (h : FSEquiv fs fs') :
    ∀ {fuel : Nat} {dir p : String}, NestedHit fs fuel dir p →
      NestedHit fs' fuel dir p := by
  intro fuel dir p hn
  induction hn with
  | here hl hitem hdir hcont =>
      obtain ⟨items', hl', hperm⟩ := h.listdir_some hl
      exact NestedHit.here hl' (hperm.mem_iff.mp hitem)
        (by rw [← h.isdir_eq]; exact hdir)
        (by rw [← contains_log_files_equiv h]; exact hcont)
  | deeper hl hitem hdir _ ih =>
      obtain ⟨items', hl', hperm⟩ := h.listdir_some hl
      exact NestedHit.deeper hl' (hperm.mem_iff.mp hitem)
        (by rw [← h.isdir_eq]; exact hdir) ih

/-- C9: against one and the same filesystem state — two oracles that
agree on everything and enumerate each directory listing in possibly
different orders — `discover_log_directories` yields identical sets of
directory paths. -/
theorem discover_log_directories_deterministic (fs fs' : FS)
    (home : String) (h : FSEquiv fs fs') :
    (discover_log_directories fs home).toFinset =
      (discover_log_directories fs' home).toFinset := by
  ext p
  simp only [List.mem_toFinset]
  rw [discover_mem, discover_mem]
  constructor
  · rintro (⟨t, ht, hs⟩ | ⟨s, ⟨t, ht, hs⟩, hn⟩)
    · exact Or.inl ⟨t, ht, seedHit_mono h home t p hs⟩
    · exact Or.inr ⟨s, ⟨t, ht, seedHit_mono h home t s hs⟩,
        nestedHit_mono h hn⟩
  · rintro (⟨t, ht, hs⟩ | ⟨s, ⟨t, ht, hs⟩, hn⟩)
    · exact Or.inl ⟨t, ht, seedHit_mono h.symm home t p hs⟩
    · exact Or.inr ⟨s, ⟨t, ht, seedHit_mono h.symm home t s hs⟩,
        nestedHit_mono h.symm hn⟩

theorem mem_visited_fold (fs : FS) (fuel : Nat) (dir : String)
    (items : List String) (init : List String) (p : String) :
    p ∈ items.foldl (fun acc item =>
        acc ++ (if fs.isdir (pathJoin dir item) then
                  nestedVisited fs fuel (pathJoin dir item)
                else [])) init ↔
      p ∈ init ∨ ∃ item ∈ items, fs.isdir (pathJoin dir item) = true ∧
        p ∈ nestedVisited fs fuel (pathJoin dir item) :=
  mem_foldl_acc _
    (fun item q => fs.isdir (pathJoin dir item) = true ∧
      q ∈ nestedVisited fs fuel (pathJoin dir item))
    (fun acc item q => by
      rw [List.mem_append]
      constructor
      · rintro (h | h)
        · exact Or.inl h
        · rcases hdir : fs.isdir (pathJoin dir item) with _ | _
          · rw [hdir] at h
            cases h
          · rw [hdir] at h
            exact Or.inr ⟨hdir, by simpa using h⟩
      · rintro (h | ⟨hdir, h⟩)
        · exact Or.inl h
        · exact Or.inr (by rw [hdir]; simpa using h))
    items init p

theorem nestedHit_mem_visited (fs : FS) :
    ∀ {fuel : Nat} {dir p : String}, NestedHit fs fuel dir p →
      p ∈ nestedVisited fs fuel dir := by
  intro fuel dir p h
  induction h with
  | here hl hitem hdir hcont =>
      refine List.mem_cons_of_mem _ ?_
      rw [hl, mem_visited_fold]
      exact Or.inr ⟨_, hitem, hdir, self_mem_nestedVisited _ _ _⟩
  | deeper hl hitem hdir _ ih =>
      refine List.mem_cons_of_mem _ ?_
      rw [hl, mem_visited_fold]
      exact Or.inr ⟨_, hitem, hdir, ih⟩

/-- Integration of the instrumentation with the real walk: everything
`_discover_nested_log_dirs` adds to the accumulator is a visited
directory. -/
theorem discover_nested_adds_subset_visited (fs : FS) (fuel : Nat)
    (dir : String) (found : List String) (p : String)
    (h : p ∈ _discover_nested_log_dirs fs fuel dir found) :
    p ∈ found ∨ p ∈ nestedVisited fs fuel dir := by
  rcases (discover_nested_mem fs fuel dir found p).mp h with h' | h'
  · exact Or.inl h'
  · exact Or.inr (nestedHit_mem_visited fs h')

/-- A concrete filesystem for the C9 witness: `/var/log` holds two
subdirectories, every other listing is denied. -/
def fsC9 : FS :=
  ⟨fun q => if q = "/var/log" then some ["nginx", "apache2"] else none,
   fun q => q = "/var/log" || q = "/var/log/nginx" || q = "/var/log/apache2",
   fun _ => false, fun _ => false⟩

/-- The same filesystem state with `/var/log` enumerated in the other
order. -/
def fsC9' : FS :=
  ⟨fun q => if q = "/var/log" then some ["apache2", "nginx"] else none,
   fun q => q = "/var/log" || q = "/var/log/nginx" || q = "/var/log/apache2",
   fun _ => false, fun _ => false⟩

/-- Witness for C9: the two enumeration orders of `/var/log` are
`FSEquiv` and discovery yields the same set on both. -/
theorem discover_log_directories_deterministic_witness :
    FSEquiv fsC9 fsC9' ∧
    (discover_log_directories fsC9 "/home/user").toFinset =
      (discover_log_directories fsC9' "/home/user").toFinset := by
  have h : FSEquiv fsC9 fsC9' := by
    refine ⟨fun q => rfl, fun q => rfl, fun q => rfl, ?_, ?_⟩
    · intro q
      by_cases hq : q = "/var/log" <;> simp [fsC9, fsC9', hq]
    · intro q l l' hl hl'
      by_cases hq : q = "/var/log"
      · subst hq
        simp only [fsC9, fsC9', if_pos rfl] at hl hl'
        rcases Option.some.inj hl with rfl
        rcases Option.some.inj hl' with rfl
        decide
      · simp only [fsC9, if_neg hq] at hl
        cases hl
  exact ⟨h, discover_log_directories_deterministic fsC9 fsC9' "/home/user" h⟩

end UbuntuHook
